/-
Verification of the chirp feature-extraction pipeline of ipfx (src/ipfx/chirp.py).

The pipeline is shallowly embedded over exact arithmetic: the rational numbers
stand in for Python floats in all control flow, axes, averaging and slicing, and
the complex numbers / reals carry the spectral payloads.  The discrete Fourier
transform (scipy.fftpack.fft) and the Savitzky-Golay filter (scipy.signal
.savgol_filter) are external library calls; they enter the embedding as function
parameters, constrained only where the code relies on a property of them
(length preservation for the FFT).  Fallible Python code (raised exceptions)
is embedded with Except.
-/
import Mathlib

namespace Ipfx

/-! ### Python-level list primitives -/

/-- Python slice l[a:b] with nonnegative bounds: elements at indices a..b-1. -/
def pySlice (l : List α) (a b : ℕ) : List α := (l.take b).drop a

/-- Python slice l[-n:]: the last n elements (the whole list when it is shorter). -/
def lastN (n : ℕ) (l : List α) : List α := l.drop (l.length - n)

/-- Python slice l[::k]: every k-th element starting at index 0.  For k = 0 the
result is [] (Python would raise; the value is never used at k = 0 here). -/
def everyNth (l : List ℚ) (k : ℕ) : List ℚ :=
  (List.range ((l.length + k - 1) / k)).map fun j => l.getD (j * k) 0

/-- numpy.linspace a b n with endpoint=True, in exact arithmetic. -/
def linspace (a b : ℚ) (n : ℕ) : List ℚ :=
  if n = 0 then []
  else if n = 1 then [a]
  else (List.range n).map fun k : ℕ => a + (b - a) * (k : ℚ) / ((n : ℚ) - 1)

/-- Python int() applied to a rational: truncation toward zero. -/
def pyint (q : ℚ) : ℤ := if 0 ≤ q then ⌊q⌋ else -⌊-q⌋

/-- numpy.rint: round half to even. -/
def rintQ (q : ℚ) : ℤ :=
  let f := ⌊q⌋
  let r := q - f
  if r < 1/2 then f
  else if 1/2 < r then f + 1
  else if Even f then f else f + 1

/-- numpy.argmax for a list: index of the first occurrence of the maximum
(0 for the empty list, where numpy raises; every caller guards emptiness). -/
def argmaxIdx [LinearOrder α] : List α → ℕ
  | [] => 0
  | x :: xs => if xs.getD (argmaxIdx xs) x ≤ x then 0 else argmaxIdx xs + 1

/-- numpy.argmin for a list: index of the first occurrence of the minimum. -/
def argminIdx [LinearOrder α] : List α → ℕ
  | [] => 0
  | x :: xs => if xs.getD (argminIdx xs) x < x then argminIdx xs + 1 else 0

/-! ### External repository helpers, modelled from the spec -/

/-- Modelled from the spec: ipfx.time_series_utils.find_time_index (the
Time-Index Locator, spec 4.2) is repository code that is not under src/.  Per
the spec it returns the index of the entry of a monotone coordinate array
closest to the target, ties broken toward the lower index, clamped to the
array range. -/
def find_time_index (t : List ℚ) (target : ℚ) : ℕ :=
  argminIdx (t.map fun x => |x - target|)

/-- Modelled from the spec: ipfx.feature_vectors._subsample_average (the
Resampler, spec 4.1) is repository code that is not under src/.  Per the spec
it partitions the input into consecutive blocks of the given width, dropping
a trailing partial block (output length = floor(input length / width)), and
replaces each block by the arithmetic mean of its entries, ignoring entries
marked missing (NaN, modelled as none).  A block with no present entry is
undefined per the spec; the embedding yields 0 there (never reached by the
callers, which pad with fewer than width missing entries). -/
def subsample_average (x : List (Option ℚ)) (width : ℕ) : List ℚ :=
  (List.range (x.length / width)).map fun b =>
    let vals := ((x.drop (b * width)).take width).filterMap id
    vals.sum / (vals.length : ℚ)

/-- The Resampler applied to a list with no missing entries. -/
def subsampleQ (x : List ℚ) (width : ℕ) : List ℚ :=
  subsample_average (x.map some) width

/-! ### Data model -/

/-- A sweep: time, voltage and current traces plus the index range of the
stimulus epoch.  Modelled from the spec (3. DATA MODEL): the Sweep object and
its named epochs live in ipfx.sweep, repository code that is not under src/;
clamp mode and sampling rate are carried by the real object but never read by
the chirp module, so they are omitted. -/
structure Sweep where
  t : List ℚ
  v : List ℚ
  i : List ℚ
  stimStart : ℕ
  stimEnd : ℕ
  deriving DecidableEq

instance : Inhabited Sweep := ⟨⟨[], [], [], 0, 0⟩⟩

/-- Modelled from the spec: Sweep.select_epoch("stim") restricts the traces to
the stimulus epoch, a named time-index range (inclusive of both endpoints). -/
def epochSlice (l : List ℚ) (a b : ℕ) : List ℚ := pySlice l a (b + 1)

/-- The voltage trace of the stimulus epoch of a sweep. -/
def stimV (s : Sweep) : List ℚ := epochSlice s.v s.stimStart s.stimEnd

/-- The current trace of the stimulus epoch of a sweep. -/
def stimI (s : Sweep) : List ℚ := epochSlice s.i s.stimStart s.stimEnd

/-- The time base of the stimulus epoch of a sweep. -/
def stimT (s : Sweep) : List ℚ := epochSlice s.t s.stimStart s.stimEnd

/-- Errors raised by the chirp module.  The exception classes themselves are
modelled from the spec (7. ERROR HANDLING DESIGN), since ipfx.error is
repository code that is not under src/:
truncatedStimulus is the FeatureError("Chirp stim epoch truncated.") raised at
chirp.py line 163 (the TruncatedStimulusError of the spec); insufficientData
is the error raised when every sweep of a set has been discarded as truncated
(numpy ValueError from stacking an empty list, the InsufficientDataError of
the spec); shapeMismatch is the numpy ValueError from stacking traces of
unequal lengths; divByZero is the Python ZeroDivisionError; indexError is the
Python IndexError from reading t[1] of a short time base; emptyArray is the
error numpy and scipy raise on an empty input to argmax or fft. -/
inductive ChirpErr where
  | truncatedStimulus
  | insufficientData
  | shapeMismatch
  | divByZero
  | indexError
  | emptyArray
  deriving DecidableEq

/-- The per-sweep feature record: the nine named features of chirp.py lines
64-74.  The dict key "3db_freq" is not a valid Lean identifier and is embedded
as the field threeDb_freq. -/
structure Features (α : Type) where
  peak_ratio : α
  peak_freq : α
  threeDb_freq : α
  z_low : α
  z_high : α
  z_peak : α
  phase_peak : α
  phase_low : α
  phase_high : α
  deriving DecidableEq

/-! ### Single-sweep transform (chirp.py lines 160-188) -/

/-- Lines 161-176 of transform_sweep: restrict to the stimulus epoch, raise on
a truncated stimulus (last 10 voltage samples all exactly zero), derive the
block width int(N / n_sample), left-pad with NaN to a multiple of the width,
block-average voltage and current, and stride the time base.  Python raises
ZeroDivisionError at the pad computation when the width is 0. -/
def transformPrep (s : Sweep) (n_sample : ℕ) :
    Except ChirpErr (List ℚ × List ℚ × List ℚ) :=
  let v := stimV s
  let i := stimI s
  let t := stimT s
  if (lastN 10 v).all (fun q => q == 0) then .error .truncatedStimulus
  else
    let N := v.length
    if n_sample = 0 then .error .divByZero
    else
      let width := N / n_sample
      if width = 0 then .error .divByZero
      else
        let pad := width * ((N + width - 1) / width) - N
        .ok (subsample_average (List.replicate pad none ++ v.map some) width,
             subsample_average (List.replicate pad none ++ i.map some) width,
             everyNth t width)

/-- The half-spectrum frequency axis: numpy.linspace(0, 1/(2 dt), N//2) where
dt is the spacing of the (downsampled) time base (chirp.py lines 179-180 and
142-143). -/
def halfAxis (t : List ℚ) (N : ℕ) : List ℚ :=
  linspace 0 (1 / (2 * (t.getD 1 0 - t.getD 0 0))) (N / 2)

/-- transform_sweep (chirp.py lines 160-188).  The discrete Fourier transform
is the parameter dft; the spectrum element type is abstract because no later
step of this function inspects spectrum values.  Reading t[1] of a
one-element strided time base raises IndexError in Python. -/
def transform_sweep (dft : List ℚ → List α) (s : Sweep) (n_sample : ℕ)
    (min_freq max_freq : ℚ) : Except ChirpErr (List α × List α × List ℚ) := do
  let (v, i, t) ← transformPrep s n_sample
  if t.length < 2 then .error .indexError
  else
    let xf := halfAxis t v.length
    let low_ind := find_time_index xf min_freq
    let high_ind := find_time_index xf max_freq
    .ok (pySlice (dft v) low_ind high_ind, pySlice (dft i) low_ind high_ind,
         pySlice xf low_ind high_ind)

/-! ### Multi-sweep averager (chirp.py lines 85-157) -/

/-- The truncated-sweep filter of chirp_amp_phase (lines 115-120): a sweep is
kept unless its final 100 full-trace voltage samples are all exactly zero. -/
def chirpStack (sweeps : List Sweep) : List Sweep :=
  sweeps.filter fun s => !((lastN 100 s.v).all fun q => q == 0)

/-- Pointwise mean across rows: numpy.vstack(rows).mean(axis=0) for rows of
equal length. -/
def pointwiseMean (ls : List (List ℚ)) : List ℚ :=
  match ls with
  | [] => []
  | l0 :: _ => (List.range l0.length).map fun k =>
      ((ls.map fun row => row.getD k 0).sum) / (ls.length : ℚ)

/-- Lines 127-136 of chirp_amp_phase: when the rounded reciprocal of the time
step exceeds down_rate, block-average both traces with width
int(current_rate / down_rate) and stride the time base by the same width;
otherwise pass all three through unchanged. -/
def chirpDownsample (avg_v avg_i t : List ℚ) (down_rate : ℚ) :
    List ℚ × List ℚ × List ℚ :=
  let current_rate : ℤ := rintQ (1 / (t.getD 1 0 - t.getD 0 0))
  if down_rate < (current_rate : ℚ) then
    let width : ℤ := pyint ((current_rate : ℚ) / down_rate)
    (subsampleQ avg_v width.toNat, subsampleQ avg_i width.toNat,
     everyNth t width.toNat)
  else (avg_v, avg_i, t)

/-- Lines 113-136 of chirp_amp_phase: filter truncated sweeps, stack and
average the survivors (numpy.vstack raises on an empty list and on rows of
unequal length), take the time base of the first sweep of the original set,
and downsample. -/
def chirpPrep (sweeps : List Sweep) (down_rate : ℚ) :
    Except ChirpErr (List ℚ × List ℚ × List ℚ) :=
  match chirpStack sweeps with
  | [] => .error .insufficientData
  | s0 :: rest =>
    if !((s0 :: rest).all fun s =>
          s.v.length == s0.v.length && s.i.length == s0.i.length)
    then .error .shapeMismatch
    else
      let avg_v := pointwiseMean ((s0 :: rest).map (·.v))
      let avg_i := pointwiseMean ((s0 :: rest).map (·.i))
      let t := (sweeps.headD default).t
      if t.length < 2 then .error .indexError
      else .ok (chirpDownsample avg_v avg_i t down_rate)

/-- chirp_amp_phase (chirp.py lines 85-157): window the averaged traces to
[start, end], build the half-spectrum axis, form Z = fft(v)/fft(i), take
resistance = |Z| and reactance = arctan(imag Z / real Z) on the first half of
the spectrum, and slice all three outputs to the located band
[min_freq, max_freq).  scipy fft raises on an empty input. -/
noncomputable def chirp_amp_phase (dft : List ℚ → List ℂ) (sweeps : List Sweep)
    (start_ end_ down_rate min_freq max_freq : ℚ) :
    Except ChirpErr (List ℝ × List ℝ × List ℚ) := do
  let (ds_v, ds_i, ds_t) ← chirpPrep sweeps down_rate
  let start_index := find_time_index ds_t start_
  let end_index := find_time_index ds_t end_
  let wv := pySlice ds_v start_index end_index
  let wi := pySlice ds_i start_index end_index
  let N := wv.length
  if ds_t.length < 2 then .error .indexError
  else
    let xf := halfAxis ds_t N
    if N = 0 then .error .emptyArray
    else
      let Z := List.zipWith (· / ·) (dft wv) (dft wi)
      let resistance := pySlice (Z.map Complex.abs) 0 (N / 2)
      let reactance := pySlice (Z.map fun z => Real.arctan (z.im / z.re)) 0 (N / 2)
      let low_ind := find_time_index xf min_freq
      let high_ind := find_time_index xf max_freq
      .ok (pySlice resistance low_ind high_ind,
           pySlice reactance low_ind high_ind,
           pySlice xf low_ind high_ind)

/-! ### Per-sweep smoothing and features (chirp.py lines 46-75) -/

/-- chirp_sweep_amp_phase (chirp.py lines 46-57): Z is the pointwise quotient
of the voltage and current spectra, amplitude its absolute value, phase its
four-quadrant angle; both curves are smoothed by savgol_filter with window
int(rint(1/(freq[1]-freq[0])))*2 + 1 and polynomial degree 5.  The filter is
the external scipy routine, taken as the parameter savgol.  Reading freq[1]
of a short frequency axis raises IndexError in Python. -/
noncomputable def chirp_sweep_amp_phase (dft : List ℚ → List ℂ)
    (savgol : List ℝ → ℤ → ℕ → List ℝ) (s : Sweep) (n_sample : ℕ)
    (min_freq max_freq : ℚ) : Except ChirpErr (List ℝ × List ℝ × List ℚ) := do
  let (v, i, freq) ← transform_sweep dft s n_sample min_freq max_freq
  let Z := List.zipWith (· / ·) v i
  let amp := Z.map Complex.abs
  let phase := Z.map Complex.arg
  if freq.length < 2 then .error .indexError
  else
    let n_filt : ℤ := pyint ((rintQ (1 / (freq.getD 1 0 - freq.getD 0 0)) : ℚ)) * 2 + 1
    .ok (savgol amp n_filt 5, savgol phase n_filt 5, freq)

/-- The pure feature computation of chirp_sweep_features (chirp.py lines
61-75), given the smoothed amplitude and phase curves and the frequency
axis. -/
noncomputable def featuresFromCurves (amp phase : List ℝ) (freq : List ℚ) : Features ℝ :=
  let i_max := argmaxIdx amp
  let z_max := amp.getD i_max 0
  let i_cutoff := argminIdx (amp.map fun a => |a - z_max / Real.sqrt 2|)
  { peak_ratio := amp.getD i_max 0 / amp.getD 0 0
    peak_freq := ((freq.getD i_max 0 : ℚ) : ℝ)
    threeDb_freq := ((freq.getD i_cutoff 0 : ℚ) : ℝ)
    z_low := amp.getD 0 0
    z_high := amp.getD (amp.length - 1) 0
    z_peak := z_max
    phase_peak := phase.getD i_max 0
    phase_low := phase.getD 0 0
    phase_high := phase.getD (phase.length - 1) 0 }

/-- chirp_sweep_features (chirp.py lines 59-75).  numpy.argmax raises on an
empty array. -/
noncomputable def chirp_sweep_features (dft : List ℚ → List ℂ)
    (savgol : List ℝ → ℤ → ℕ → List ℝ) (s : Sweep) (n_sample : ℕ)
    (min_freq max_freq : ℚ) : Except ChirpErr (Features ℝ) := do
  let (amp, phase, freq) ← chirp_sweep_amp_phase dft savgol s n_sample min_freq max_freq
  if amp.isEmpty then .error .emptyArray
  else .ok (featuresFromCurves amp phase freq)

/-! ### Per-specimen aggregator (chirp.py lines 21-44) -/

/-- The elementwise mean of a list of feature records: the dict comprehension
of chirp.py line 43, numpy.mean applied per key. -/
noncomputable def featuresMean (rs : List (Features ℝ)) : Features ℝ :=
  let m : (Features ℝ → ℝ) → ℝ := fun f => (rs.map f).sum / (rs.length : ℝ)
  { peak_ratio := m (·.peak_ratio)
    peak_freq := m (·.peak_freq)
    threeDb_freq := m (·.threeDb_freq)
    z_low := m (·.z_low)
    z_high := m (·.z_high)
    z_peak := m (·.z_peak)
    phase_peak := m (·.phase_peak)
    phase_low := m (·.phase_low)
    phase_high := m (·.phase_high) }

/-- extract_chirp_features (chirp.py lines 21-44).  The external data-loading
collaborators (op.dataset_for_specimen_id, op.sweepset_by_type_qc) enter as
the load argument: the outcome of the guarded load block, either a sweep list
or any loading exception.  Every per-sweep exception is caught and the sweep
skipped (lines 31-37); an empty result list yields the empty dict, embedded
as none. -/
noncomputable def extract_chirp_features (dft : List ℚ → List ℂ)
    (savgol : List ℝ → ℤ → ℕ → List ℝ) (load : Except Unit (List Sweep))
    (n_sample : ℕ) (min_freq max_freq : ℚ) : Option (Features ℝ) :=
  match load with
  | .error _ => none
  | .ok sweeps =>
    let results := sweeps.filterMap fun s =>
      (chirp_sweep_features dft savgol s n_sample min_freq max_freq).toOption
    match results with
    | [] => none
    | r :: rs => some (featuresMean (r :: rs))

/-! ### Basic lemmas about the list primitives -/

theorem pySlice_length (l : List α) (a b : ℕ) :
    (pySlice l a b).length = min b l.length - a := by
  simp [pySlice]

theorem pySlice_sublist (l : List α) (a b : ℕ) : (pySlice l a b).Sublist l :=
  ((l.take b).drop_sublist a).trans (l.take_sublist b)

theorem pairwise_pySlice {R : α → α → Prop} {l : List α} (h : l.Pairwise R)
    (a b : ℕ) : (pySlice l a b).Pairwise R :=
  h.sublist (pySlice_sublist l a b)

theorem linspace_length (a b : ℚ) (n : ℕ) : (linspace a b n).length = n := by
  unfold linspace
  split
  · simp +arith [*]
  · split
    · simp +arith [*]
    · rw [List.length_map, List.length_range]


theorem linspace_pairwise_lt (a b : ℚ) (n : ℕ) (hab : a < b) :
    (linspace a b n).Pairwise (· < ·) := by
  unfold linspace
  split
  · simp
  · split
    · simp
    · rename_i h0 h1
      rw [List.pairwise_map]
      refine (List.pairwise_lt_range n).imp ?_
      intro j k hjk
      have hn1 : (0 : ℚ) < ((n : ℚ) - 1) := by
        have : 2 ≤ n := by omega
        have : (2 : ℚ) ≤ (n : ℚ) := by exact_mod_cast this
        linarith
      have hba : (0 : ℚ) < b - a := by linarith
      have hjk2 : (j : ℚ) < (k : ℚ) := by exact_mod_cast hjk
      have hmul : (b - a) * j < (b - a) * k := mul_lt_mul_of_pos_left hjk2 hba
      have hdiv : (b - a) * j / ((n : ℚ) - 1) < (b - a) * k / ((n : ℚ) - 1) :=
        (div_lt_div_iff_of_pos_right hn1).mpr hmul
      linarith

theorem pyint_eq_floor (q : ℚ) (h : 0 ≤ q) : pyint q = ⌊q⌋ := by
  simp [pyint, h]

/-! ### Characterization of argmaxIdx and argminIdx -/

theorem argmaxIdx_cons [LinearOrder α] (x : α) (xs : List α) :
    argmaxIdx (x :: xs) =
      if xs.getD (argmaxIdx xs) x ≤ x then 0 else argmaxIdx xs + 1 := rfl

theorem argminIdx_cons [LinearOrder α] (x : α) (xs : List α) :
    argminIdx (x :: xs) =
      if xs.getD (argminIdx xs) x < x then argminIdx xs + 1 else 0 := rfl

theorem argmaxIdx_lt_length [LinearOrder α] :
    ∀ (l : List α), l ≠ [] → argmaxIdx l < l.length := by
  intro l
  induction l with
  | nil => intro h; exact absurd rfl h
  | cons x xs ih =>
    intro _
    show (if xs.getD (argmaxIdx xs) x ≤ x then 0 else argmaxIdx xs + 1) < xs.length + 1
    split
    · exact Nat.succ_pos _
    · rename_i hc
      have hxs : xs ≠ [] := by
        rintro rfl
        exact hc (le_refl x)
      exact Nat.succ_lt_succ (ih hxs)

theorem getD_le_argmaxIdx [LinearOrder α] :
    ∀ (l : List α) (d d2 : α) (j : ℕ), j < l.length →
      l.getD j d ≤ l.getD (argmaxIdx l) d2 := by
  intro l
  induction l with
  | nil => intro d d2 j hj; simp at hj
  | cons x xs ih =>
    intro d d2 j hj
    show (x :: xs).getD j d ≤
      (x :: xs).getD (if xs.getD (argmaxIdx xs) x ≤ x then 0 else argmaxIdx xs + 1) d2
    split
    · rename_i hc
      cases j with
      | zero => simp
      | succ j =>
        have hj2 : j < xs.length := by simpa using hj
        have hxs : xs ≠ [] := by rintro rfl; simp at hj2
        have hlt := argmaxIdx_lt_length xs hxs
        calc xs.getD j d ≤ xs.getD (argmaxIdx xs) d := ih d d j hj2
          _ = xs.getD (argmaxIdx xs) x := by
              rw [List.getD_eq_getElem _ _ hlt, List.getD_eq_getElem _ _ hlt]
          _ ≤ x := hc
          _ = (x :: xs).getD 0 d2 := rfl
    · rename_i hc
      push_neg at hc
      have hxs : xs ≠ [] := by
        rintro rfl
        simp [argmaxIdx] at hc
      have hlt := argmaxIdx_lt_length xs hxs
      cases j with
      | zero =>
        show x ≤ xs.getD (argmaxIdx xs) d2
        rw [List.getD_eq_getElem _ _ hlt]
        rw [List.getD_eq_getElem _ _ hlt] at hc
        exact le_of_lt hc
      | succ j =>
        have hj2 : j < xs.length := by simpa using hj
        exact ih d d2 j hj2

theorem getD_lt_of_lt_argmaxIdx [LinearOrder α] :
    ∀ (l : List α) (d d2 : α) (j : ℕ), j < argmaxIdx l →
      l.getD j d < l.getD (argmaxIdx l) d2 := by
  intro l
  induction l with
  | nil => intro d d2 j hj; simp [argmaxIdx] at hj
  | cons x xs ih =>
    intro d d2 j hj
    by_cases hc : xs.getD (argmaxIdx xs) x ≤ x
    · rw [argmaxIdx_cons, if_pos hc] at hj
      simp at hj
    · rw [argmaxIdx_cons, if_neg hc] at hj ⊢
      push_neg at hc
      have hxs : xs ≠ [] := by
        rintro rfl
        simp [argmaxIdx] at hc
      have hlt := argmaxIdx_lt_length xs hxs
      cases j with
      | zero =>
        show x < xs.getD (argmaxIdx xs) d2
        rw [List.getD_eq_getElem _ _ hlt]
        rw [List.getD_eq_getElem _ _ hlt] at hc
        exact hc
      | succ j =>
        have hj2 : j < argmaxIdx xs := by omega
        exact ih d d2 j hj2

theorem argminIdx_lt_length [LinearOrder α] :
    ∀ (l : List α), l ≠ [] → argminIdx l < l.length := by
  intro l
  induction l with
  | nil => intro h; exact absurd rfl h
  | cons x xs ih =>
    intro _
    show (if xs.getD (argminIdx xs) x < x then argminIdx xs + 1 else 0) < xs.length + 1
    split
    · rename_i hc
      have hxs : xs ≠ [] := by
        rintro rfl
        exact absurd hc (lt_irrefl x)
      exact Nat.succ_lt_succ (ih hxs)
    · exact Nat.succ_pos _

theorem argminIdx_getD_le [LinearOrder α] :
    ∀ (l : List α) (d d2 : α) (j : ℕ), j < l.length →
      l.getD (argminIdx l) d2 ≤ l.getD j d := by
  intro l
  induction l with
  | nil => intro d d2 j hj; simp at hj
  | cons x xs ih =>
    intro d d2 j hj
    show (x :: xs).getD (if xs.getD (argminIdx xs) x < x then argminIdx xs + 1 else 0) d2 ≤
      (x :: xs).getD j d
    split
    · rename_i hc
      have hxs : xs ≠ [] := by
        rintro rfl
        exact absurd hc (lt_irrefl x)
      have hlt := argminIdx_lt_length xs hxs
      cases j with
      | zero =>
        show xs.getD (argminIdx xs) d2 ≤ x
        rw [List.getD_eq_getElem _ _ hlt]
        rw [List.getD_eq_getElem _ _ hlt] at hc
        exact le_of_lt hc
      | succ j =>
        have hj2 : j < xs.length := by simpa using hj
        exact ih d d2 j hj2
    · rename_i hc
      push_neg at hc
      cases j with
      | zero => simp
      | succ j =>
        have hj2 : j < xs.length := by simpa using hj
        have hxs : xs ≠ [] := by rintro rfl; simp at hj2
        have hlt := argminIdx_lt_length xs hxs
        calc (x :: xs).getD 0 d2 = x := rfl
          _ ≤ xs.getD (argminIdx xs) x := hc
          _ = xs.getD (argminIdx xs) d := by
              rw [List.getD_eq_getElem _ _ hlt, List.getD_eq_getElem _ _ hlt]
          _ ≤ xs.getD j d := ih d d j hj2

theorem argminIdx_getD_lt_of_lt [LinearOrder α] :
    ∀ (l : List α) (d d2 : α) (j : ℕ), j < argminIdx l →
      l.getD (argminIdx l) d2 < l.getD j d := by
  intro l
  induction l with
  | nil => intro d d2 j hj; simp [argminIdx] at hj
  | cons x xs ih =>
    intro d d2 j hj
    by_cases hc : xs.getD (argminIdx xs) x < x
    · rw [argminIdx_cons, if_pos hc] at hj ⊢
      have hxs : xs ≠ [] := by
        rintro rfl
        exact absurd hc (lt_irrefl x)
      have hlt := argminIdx_lt_length xs hxs
      cases j with
      | zero =>
        show xs.getD (argminIdx xs) d2 < x
        rw [List.getD_eq_getElem _ _ hlt]
        rw [List.getD_eq_getElem _ _ hlt] at hc
        exact hc
      | succ j =>
        have hj2 : j < argminIdx xs := by omega
        exact ih d d2 j hj2
    · rw [argminIdx_cons, if_neg hc] at hj
      simp at hj

/-! ### Length and monotonicity lemmas for the pipeline stages -/

theorem everyNth_length (l : List ℚ) (k : ℕ) :
    (everyNth l k).length = (l.length + k - 1) / k := by
  simp [everyNth]

theorem subsample_average_length (x : List (Option ℚ)) (w : ℕ) :
    (subsample_average x w).length = x.length / w := by
  simp [subsample_average]

theorem subsampleQ_length (x : List ℚ) (w : ℕ) :
    (subsampleQ x w).length = x.length / w := by
  simp [subsampleQ, subsample_average_length]

theorem everyNth_pairwise_lt {l : List ℚ} {k : ℕ} (hk : 0 < k)
    (h : l.Pairwise (· < ·)) : (everyNth l k).Pairwise (· < ·) := by
  unfold everyNth
  rw [List.pairwise_map]
  refine (List.pairwise_lt_range _).imp_of_mem ?_
  intro j j2 hj hj2 hjj
  rw [List.mem_range] at hj hj2
  have hb : (j2 + 1) * k ≤ l.length + k - 1 :=
    (Nat.le_div_iff_mul_le hk).mp (Nat.succ_le_of_lt hj2)
  rw [Nat.succ_mul] at hb
  have hlen2 : j2 * k < l.length := by omega
  have hlen1 : j * k < l.length := by
    have : j * k ≤ j2 * k := Nat.mul_le_mul_right k (le_of_lt hjj)
    omega
  rw [List.getD_eq_getElem _ _ hlen1, List.getD_eq_getElem _ _ hlen2]
  exact List.pairwise_iff_getElem.mp h _ _ hlen1 hlen2
    ((Nat.mul_lt_mul_right hk).mpr hjj)

/-! ### Unfolding lemmas for the two spectral transforms -/

theorem transform_sweep_of_prep {α : Type} (dft : List ℚ → List α) (s : Sweep)
    (n_sample : ℕ) (mi ma : ℚ) (v i t : List ℚ)
    (hprep : transformPrep s n_sample = .ok (v, i, t)) (ht : 2 ≤ t.length) :
    transform_sweep dft s n_sample mi ma =
      .ok (pySlice (dft v) (find_time_index (halfAxis t v.length) mi)
             (find_time_index (halfAxis t v.length) ma),
           pySlice (dft i) (find_time_index (halfAxis t v.length) mi)
             (find_time_index (halfAxis t v.length) ma),
           pySlice (halfAxis t v.length) (find_time_index (halfAxis t v.length) mi)
             (find_time_index (halfAxis t v.length) ma)) := by
  unfold transform_sweep
  rw [hprep]
  show (if t.length < 2 then _ else _) = _
  rw [if_neg (by omega)]

theorem transform_sweep_of_prep_error {α : Type} (dft : List ℚ → List α)
    (s : Sweep) (n_sample : ℕ) (mi ma : ℚ) (e : ChirpErr)
    (hprep : transformPrep s n_sample = .error e) :
    transform_sweep dft s n_sample mi ma = .error e := by
  unfold transform_sweep
  rw [hprep]
  rfl

theorem chirp_amp_phase_of_prep (dft : List ℚ → List ℂ) (sweeps : List Sweep)
    (st en dr mi ma : ℚ) (dv di dt : List ℚ)
    (hprep : chirpPrep sweeps dr = .ok (dv, di, dt)) (hdt : 2 ≤ dt.length)
    (hN : (pySlice dv (find_time_index dt st) (find_time_index dt en)).length ≠ 0) :
    chirp_amp_phase dft sweeps st en dr mi ma =
      (let wv := pySlice dv (find_time_index dt st) (find_time_index dt en)
       let wi := pySlice di (find_time_index dt st) (find_time_index dt en)
       let N := wv.length
       let xf := halfAxis dt N
       let Z := List.zipWith (· / ·) (dft wv) (dft wi)
       .ok (pySlice (pySlice (Z.map Complex.abs) 0 (N / 2))
              (find_time_index xf mi) (find_time_index xf ma),
            pySlice (pySlice (Z.map fun z => Real.arctan (z.im / z.re)) 0 (N / 2))
              (find_time_index xf mi) (find_time_index xf ma),
            pySlice xf (find_time_index xf mi) (find_time_index xf ma))) := by
  unfold chirp_amp_phase
  rw [hprep]
  show (if dt.length < 2 then _ else _) = _
  rw [if_neg (by omega)]
  show (if _ = 0 then _ else _) = _
  rw [if_neg hN]

theorem chirp_amp_phase_of_prep_error (dft : List ℚ → List ℂ)
    (sweeps : List Sweep) (st en dr mi ma : ℚ) (e : ChirpErr)
    (hprep : chirpPrep sweeps dr = .error e) :
    chirp_amp_phase dft sweeps st en dr mi ma = .error e := by
  unfold chirp_amp_phase
  rw [hprep]
  rfl

/-! ### Error propagation through the per-sweep pipeline -/

theorem chirp_sweep_amp_phase_of_prep_error (dft : List ℚ → List ℂ)
    (savgol : List ℝ → ℤ → ℕ → List ℝ) (s : Sweep) (n : ℕ) (mi ma : ℚ)
    (e : ChirpErr) (h : transformPrep s n = .error e) :
    chirp_sweep_amp_phase dft savgol s n mi ma = .error e := by
  unfold chirp_sweep_amp_phase
  rw [transform_sweep_of_prep_error dft s n mi ma e h]
  rfl

theorem chirp_sweep_features_of_prep_error (dft : List ℚ → List ℂ)
    (savgol : List ℝ → ℤ → ℕ → List ℝ) (s : Sweep) (n : ℕ) (mi ma : ℚ)
    (e : ChirpErr) (h : transformPrep s n = .error e) :
    chirp_sweep_features dft savgol s n mi ma = .error e := by
  unfold chirp_sweep_features
  rw [chirp_sweep_amp_phase_of_prep_error dft savgol s n mi ma e h]
  rfl

theorem filterMap_toOption_filter_isOk {E B : Type} (f : Sweep → Except E B)
    (l : List Sweep) :
    (l.filter fun s => (f s).isOk).filterMap (fun s => (f s).toOption)
      = l.filterMap fun s => (f s).toOption := by
  rw [List.filterMap_filter]
  congr 1
  funext s
  cases hfs : f s <;> simp [Except.isOk, Except.toBool, Except.toOption, hfs]

theorem featuresMean_singleton (r : Features ℝ) : featuresMean [r] = r := by
  cases r
  simp [featuresMean]

/-! ### Concrete objects used by the witnesses -/

/-- A trivial spectrum function for witness instantiation: every output sample
is 1; it preserves length, as the true FFT does. -/
noncomputable def dft0 : List ℚ → List ℂ := fun l => List.replicate l.length 1

/-- A trivial smoothing filter for witness instantiation: the identity. -/
noncomputable def savgol0 : List ℝ → ℤ → ℕ → List ℝ := fun x _ _ => x

/-- A 16-sample time base with spacing 1/16 second. -/
def t16 : List ℚ := (List.range 16).map fun k : ℕ => (k : ℚ) / 16

/-- A 16-sample sweep with constant unit voltage and current. -/
def sOnes16 : Sweep := ⟨t16, List.replicate 16 1, List.replicate 16 1, 0, 15⟩

/-- A 16-sample sweep whose traces are identically zero: its stimulus epoch is
truncated in the sense of the last-10-sample check, and its full trace is
truncated in the sense of the last-100-sample check. -/
def sZero16 : Sweep := ⟨t16, List.replicate 16 0, List.replicate 16 0, 0, 15⟩

/-- The feature record the pipeline produces on sOnes16 with dft0 and
savgol0. -/
noncomputable def f0 : Features ℝ := ⟨1, 0, 0, 1, 1, 1, 0, 0, 0⟩

theorem except_bind_ok {E A B : Type} (a : A) (f : A → Except E B) :
    (Except.ok a : Except E A) >>= f = f a := rfl

theorem t16_eq : t16 = [0, 1/16, 1/8, 3/16, 1/4, 5/16, 3/8, 7/16, 1/2,
    9/16, 5/8, 11/16, 3/4, 13/16, 7/8, 15/16] := by
  norm_num [t16, List.range_succ]

theorem prep_sOnes16 : transformPrep sOnes16 8 =
    .ok ([1, 1, 1, 1, 1, 1, 1, 1], [1, 1, 1, 1, 1, 1, 1, 1],
         [0, 1/8, 1/4, 3/8, 1/2, 5/8, 3/4, 7/8]) := by
  norm_num [transformPrep, sOnes16, t16_eq, stimV, stimI, stimT, epochSlice,
    pySlice, lastN, subsample_average, subsampleQ, everyNth, List.range_succ,
    List.replicate, List.getD, List.filterMap_cons, id_eq]

theorem prep_sZero16 : transformPrep sZero16 8 = .error .truncatedStimulus := by
  norm_num [transformPrep, sZero16, t16_eq, stimV, stimI, stimT, epochSlice,
    pySlice, lastN, List.replicate]

theorem xf_sOnes16 : halfAxis [0, 1/8, 1/4, 3/8, 1/2, 5/8, 3/4, 7/8]
    ([1, 1, 1, 1, 1, 1, 1, 1] : List ℚ).length = [0, 4/3, 8/3, 4] := by
  norm_num [halfAxis, linspace, List.range_succ, List.getD]

theorem fti_lo_sOnes16 : find_time_index [0, 4/3, 8/3, 4] 0 = 0 := by
  norm_num [find_time_index, argminIdx, List.getD, abs]

theorem fti_hi_sOnes16 : find_time_index [0, 4/3, 8/3, 4] 4 = 3 := by
  norm_num [find_time_index, argminIdx, List.getD, abs]

theorem tsweep_sOnes16 : transform_sweep dft0 sOnes16 8 0 4 =
    .ok (List.replicate 3 (1 : ℂ), List.replicate 3 (1 : ℂ), [0, 4/3, 8/3]) := by
  rw [transform_sweep_of_prep dft0 sOnes16 8 0 4 [1, 1, 1, 1, 1, 1, 1, 1]
    [1, 1, 1, 1, 1, 1, 1, 1] [0, 1/8, 1/4, 3/8, 1/2, 5/8, 3/4, 7/8] prep_sOnes16
    (by norm_num)]
  rw [xf_sOnes16, fti_lo_sOnes16, fti_hi_sOnes16]
  norm_num [dft0, pySlice, List.take_replicate, List.replicate]

theorem amp_phase_sOnes16 : chirp_sweep_amp_phase dft0 savgol0 sOnes16 8 0 4 =
    .ok (List.replicate 3 (1 : ℝ), List.replicate 3 (0 : ℝ), [0, 4/3, 8/3]) := by
  unfold chirp_sweep_amp_phase
  rw [tsweep_sOnes16, except_bind_ok]
  show (if ([0, (4:ℚ)/3, 8/3] : List ℚ).length < 2 then _ else _) = _
  rw [if_neg (by norm_num)]
  simp [savgol0, List.zipWith_replicate', List.map_replicate]

theorem features_sOnes16 : chirp_sweep_features dft0 savgol0 sOnes16 8 0 4 =
    .ok f0 := by
  unfold chirp_sweep_features
  rw [amp_phase_sOnes16, except_bind_ok]
  show (if (List.replicate 3 (1 : ℝ)).isEmpty = true then _ else _) = _
  rw [if_neg (by simp)]
  unfold f0 featuresFromCurves
  norm_num [argmaxIdx, argminIdx, List.getD, List.replicate]

/-! ### Claim C1 -/

/-- C1: the per-specimen aggregator extract_chirp_features never raises for
per-sweep problems.  It is a total function into Option (Features): a
data-loading failure yields the empty mapping; if every sweep of the loaded
set fails, the result is the empty mapping; and the result on any sweep list
is the same as on the sublist of sweeps whose per-sweep extraction succeeds,
so a failing sweep is skipped and processing continues. -/
theorem claim_C1_aggregator_error_tolerance
    (dft : List ℚ → List ℂ) (savgol : List ℝ → ℤ → ℕ → List ℝ)
    (n_sample : ℕ) (mi ma : ℚ) (l : List Sweep)
    (hall : ∀ s ∈ l,
      (chirp_sweep_features dft savgol s n_sample mi ma).toOption = none) :
    extract_chirp_features dft savgol (.error ()) n_sample mi ma = none ∧
    extract_chirp_features dft savgol (.ok l) n_sample mi ma = none ∧
    ∀ l2 : List Sweep,
      extract_chirp_features dft savgol (.ok l2) n_sample mi ma =
        extract_chirp_features dft savgol
          (.ok (l2.filter fun s =>
            (chirp_sweep_features dft savgol s n_sample mi ma).isOk))
          n_sample mi ma := by
  refine ⟨rfl, ?_, ?_⟩
  · unfold extract_chirp_features
    have h0 : (l.filterMap fun s =>
        (chirp_sweep_features dft savgol s n_sample mi ma).toOption) = [] :=
      List.filterMap_eq_nil_iff.mpr hall
    simp only [h0]
  · intro l2
    unfold extract_chirp_features
    dsimp only
    rw [filterMap_toOption_filter_isOk]

/-- Witness for C1: a specimen whose single sweep has an all-zero stimulus
epoch; its per-sweep extraction raises the truncation error, and the
aggregator returns the empty mapping. -/
theorem claim_C1_aggregator_error_tolerance_witness :
    extract_chirp_features dft0 savgol0 (.ok [sZero16]) 8 0 4 = none :=
  (claim_C1_aggregator_error_tolerance dft0 savgol0 8 0 4 [sZero16]
    (by
      intro s hs
      rw [List.mem_singleton] at hs
      subst hs
      rw [chirp_sweep_features_of_prep_error dft0 savgol0 sZero16 8 0 4
        ChirpErr.truncatedStimulus prep_sZero16]
      rfl)).2.1

/-! ### Claim C2 -/

/-- C2: when at least one sweep produces a per-sweep feature record, the
aggregator returns, for each of the 9 named features, the arithmetic mean of
that feature over all successful sweeps; when exactly one sweep succeeds the
result is that single record, unaveraged. -/
theorem claim_C2_aggregator_mean
    (dft : List ℚ → List ℂ) (savgol : List ℝ → ℤ → ℕ → List ℝ)
    (n_sample : ℕ) (mi ma : ℚ) (l : List Sweep) (rs : List (Features ℝ))
    (hrs : rs = l.filterMap fun s =>
      (chirp_sweep_features dft savgol s n_sample mi ma).toOption)
    (hne : rs ≠ []) :
    extract_chirp_features dft savgol (.ok l) n_sample mi ma =
        some (featuresMean rs) ∧
    ((featuresMean rs).peak_ratio = (rs.map (·.peak_ratio)).sum / (rs.length : ℝ) ∧
     (featuresMean rs).peak_freq = (rs.map (·.peak_freq)).sum / (rs.length : ℝ) ∧
     (featuresMean rs).threeDb_freq = (rs.map (·.threeDb_freq)).sum / (rs.length : ℝ) ∧
     (featuresMean rs).z_low = (rs.map (·.z_low)).sum / (rs.length : ℝ) ∧
     (featuresMean rs).z_high = (rs.map (·.z_high)).sum / (rs.length : ℝ) ∧
     (featuresMean rs).z_peak = (rs.map (·.z_peak)).sum / (rs.length : ℝ) ∧
     (featuresMean rs).phase_peak = (rs.map (·.phase_peak)).sum / (rs.length : ℝ) ∧
     (featuresMean rs).phase_low = (rs.map (·.phase_low)).sum / (rs.length : ℝ) ∧
     (featuresMean rs).phase_high = (rs.map (·.phase_high)).sum / (rs.length : ℝ)) ∧
    ∀ r : Features ℝ, rs = [r] →
      extract_chirp_features dft savgol (.ok l) n_sample mi ma = some r := by
  have hmain : extract_chirp_features dft savgol (.ok l) n_sample mi ma =
      some (featuresMean rs) := by
    unfold extract_chirp_features
    dsimp only
    rw [← hrs]
    obtain ⟨r, rs2, rfl⟩ := List.exists_cons_of_ne_nil hne
    rfl
  refine ⟨hmain, ⟨rfl, rfl, rfl, rfl, rfl, rfl, rfl, rfl, rfl⟩, ?_⟩
  intro r hr
  rw [hmain, hr, featuresMean_singleton]

/-- Witness for C2: a specimen with one sweep that produces features and one
sweep that raises the truncation error; the aggregator returns exactly the
first record, unaveraged. -/
theorem claim_C2_aggregator_mean_witness :
    extract_chirp_features dft0 savgol0 (.ok [sOnes16, sZero16]) 8 0 4 =
      some f0 := by
  have hrs : ([f0] : List (Features ℝ)) = [sOnes16, sZero16].filterMap
      (fun s => (chirp_sweep_features dft0 savgol0 s 8 0 4).toOption) := by
    rw [List.filterMap_cons, List.filterMap_cons, features_sOnes16,
      chirp_sweep_features_of_prep_error dft0 savgol0 sZero16 8 0 4
        ChirpErr.truncatedStimulus prep_sZero16]
    rfl
  exact (claim_C2_aggregator_mean dft0 savgol0 8 0 4 [sOnes16, sZero16] [f0]
    hrs (by simp)).2.2 f0 rfl

/-! ### Characterization of transformPrep -/

theorem epochSlice_length (l : List ℚ) (a b : ℕ) :
    (epochSlice l a b).length = min (b + 1) l.length - a := by
  simp [epochSlice, pySlice]

theorem transformPrep_truncated (s : Sweep) (n : ℕ)
    (h : (lastN 10 (stimV s)).all (fun q => q == 0) = true) :
    transformPrep s n = .error .truncatedStimulus := by
  unfold transformPrep
  rw [if_pos h]

theorem transformPrep_divByZero (s : Sweep) (n : ℕ)
    (h : (lastN 10 (stimV s)).all (fun q => q == 0) = false)
    (h2 : n = 0 ∨ (stimV s).length / n = 0) :
    transformPrep s n = .error .divByZero := by
  unfold transformPrep
  rw [if_neg (by simp [h])]
  dsimp only
  rcases h2 with h2 | h2
  · rw [if_pos h2]
  · by_cases h0 : n = 0
    · rw [if_pos h0]
    · rw [if_neg h0, if_pos h2]

theorem transformPrep_ok (s : Sweep) (n : ℕ)
    (h : (lastN 10 (stimV s)).all (fun q => q == 0) = false)
    (h0 : n ≠ 0) (hw : (stimV s).length / n ≠ 0) :
    transformPrep s n =
      (let N := (stimV s).length
       let width := N / n
       let pad := width * ((N + width - 1) / width) - N
       .ok (subsample_average (List.replicate pad none ++ (stimV s).map some) width,
            subsample_average (List.replicate pad none ++ (stimI s).map some) width,
            everyNth (stimT s) width)) := by
  unfold transformPrep
  rw [if_neg (by simp [h])]
  dsimp only
  rw [if_neg h0, if_neg hw]

theorem transformPrep_not_truncated (s : Sweep) (n : ℕ)
    (h : (lastN 10 (stimV s)).all (fun q => q == 0) = false) :
    transformPrep s n ≠ .error .truncatedStimulus := by
  by_cases h0 : n = 0
  · rw [transformPrep_divByZero s n h (Or.inl h0)]
    simp
  · by_cases hw : (stimV s).length / n = 0
    · rw [transformPrep_divByZero s n h (Or.inr hw)]
      simp
    · rw [transformPrep_ok s n h h0 hw]
      simp

theorem transform_sweep_prep_ok_cases {α : Type} (dft : List ℚ → List α)
    (s : Sweep) (n : ℕ) (mi ma : ℚ) (v i t : List ℚ)
    (h : transformPrep s n = .ok (v, i, t)) :
    transform_sweep dft s n mi ma = .error .indexError ∨
      ∃ out, transform_sweep dft s n mi ma = .ok out := by
  by_cases ht : t.length < 2
  · left
    unfold transform_sweep
    rw [h, except_bind_ok]
    dsimp only
    rw [if_pos ht]
  · right
    exact ⟨_, transform_sweep_of_prep dft s n mi ma v i t h (by omega)⟩

theorem transform_sweep_short {α : Type} (dft : List ℚ → List α) (s : Sweep)
    (n : ℕ) (mi ma : ℚ) (hN : (stimV s).length < n) :
    (transform_sweep dft s n mi ma).isOk = false ∧
    ((lastN 10 (stimV s)).all (fun q => q == 0) = false →
      transform_sweep dft s n mi ma = .error .divByZero) := by
  by_cases htr : (lastN 10 (stimV s)).all (fun q => q == 0) = true
  · constructor
    · rw [transform_sweep_of_prep_error dft s n mi ma ChirpErr.truncatedStimulus
        (transformPrep_truncated s n htr)]
      rfl
    · intro hfalse
      rw [htr] at hfalse
      simp at hfalse
  · have hfalse : (lastN 10 (stimV s)).all (fun q => q == 0) = false := by
      simpa using htr
    have hdiv : transformPrep s n = .error .divByZero :=
      transformPrep_divByZero s n hfalse (Or.inr (Nat.div_eq_of_lt hN))
    constructor
    · rw [transform_sweep_of_prep_error dft s n mi ma ChirpErr.divByZero hdiv]
      rfl
    · intro _
      exact transform_sweep_of_prep_error dft s n mi ma ChirpErr.divByZero hdiv

/-! ### Claims C3 and C10 -/

/-- A sweep whose stimulus epoch has only 20 samples, with constant unit
traces: far shorter than the default target sample count of 10000. -/
def s20 : Sweep := ⟨(List.range 20).map (fun k : ℕ => (k : ℚ)),
  List.replicate 20 1, List.replicate 20 1, 0, 19⟩

/-- Counterexample to C3 as stated: this sweep does not end in ten zero
samples, yet transform_sweep does not proceed and return spectra; it raises
the division-by-zero error because the epoch is shorter than n_sample. -/
theorem claim_C3_counterexample :
    (lastN 10 (stimV s20)).all (fun q => q == 0) = false ∧
    transform_sweep (fun l : List ℚ => l) s20 10000 1 35 =
      .error .divByZero := by
  have hfalse : (lastN 10 (stimV s20)).all (fun q => q == 0) = false := by
    norm_num [stimV, s20, epochSlice, pySlice, lastN, List.replicate]
  have hw : (stimV s20).length / 10000 = 0 := by
    norm_num [stimV, s20, epochSlice, pySlice, List.replicate]
  exact ⟨hfalse, transform_sweep_of_prep_error _ s20 10000 1 35
    ChirpErr.divByZero (transformPrep_divByZero s20 10000 hfalse (Or.inr hw))⟩

/-- C3 amended: transform_sweep raises the truncated-stimulus error exactly
when the last 10 samples of the epoch voltage trace are all exactly zero;
otherwise it proceeds and returns spectra provided the epoch holds at least
n_sample samples (with n_sample at least 2), the proviso forced by the
counterexample. -/
theorem claim_C3_transform_truncation {α : Type} (dft : List ℚ → List α)
    (s : Sweep) (n_sample : ℕ) (mi ma : ℚ)
    (hlen : s.t.length = s.v.length) (hn2 : 2 ≤ n_sample) :
    (transform_sweep dft s n_sample mi ma = .error .truncatedStimulus ↔
      (lastN 10 (stimV s)).all (fun q => q == 0) = true) ∧
    ((lastN 10 (stimV s)).all (fun q => q == 0) = false →
      n_sample ≤ (stimV s).length →
      ∃ out, transform_sweep dft s n_sample mi ma = .ok out) := by
  constructor
  · constructor
    · intro hres
      by_contra htr
      have hfalse : (lastN 10 (stimV s)).all (fun q => q == 0) = false := by
        simpa using htr
      have h0 : n_sample ≠ 0 := by omega
      by_cases hw : (stimV s).length / n_sample = 0
      · rw [transform_sweep_of_prep_error dft s n_sample mi ma
          ChirpErr.divByZero
          (transformPrep_divByZero s n_sample hfalse (Or.inr hw))] at hres
        simp at hres
      · have hprep := transformPrep_ok s n_sample hfalse h0 hw
        dsimp only at hprep
        rcases transform_sweep_prep_ok_cases dft s n_sample mi ma _ _ _ hprep
          with hidx | ⟨out, hok⟩
        · rw [hidx] at hres
          simp at hres
        · rw [hok] at hres
          simp at hres
    · intro htr
      exact transform_sweep_of_prep_error dft s n_sample mi ma
        ChirpErr.truncatedStimulus (transformPrep_truncated s n_sample htr)
  · intro hfalse hNs
    have h0 : n_sample ≠ 0 := by omega
    have hn0 : 0 < n_sample := by omega
    have hw1 : 1 ≤ (stimV s).length / n_sample :=
      (Nat.one_le_div_iff hn0).mpr hNs
    have hw : (stimV s).length / n_sample ≠ 0 := by omega
    have hprep := transformPrep_ok s n_sample hfalse h0 hw
    dsimp only at hprep
    have hstimT : (stimT s).length = (stimV s).length := by
      unfold stimT stimV
      rw [epochSlice_length, epochSlice_length, hlen]
    have hwidthN : (stimV s).length / n_sample + 1 ≤ (stimV s).length := by
      have hle : (stimV s).length / n_sample ≤ (stimV s).length / 2 :=
        Nat.div_le_div_left hn2 (by omega)
      have hlt : (stimV s).length / 2 < (stimV s).length :=
        Nat.div_lt_self (by omega) (by omega)
      omega
    have h2t : 2 ≤ (everyNth (stimT s) ((stimV s).length / n_sample)).length := by
      rw [everyNth_length, hstimT]
      rw [Nat.le_div_iff_mul_le (by omega)]
      omega
    exact ⟨_, transform_sweep_of_prep dft s n_sample mi ma _ _ _ hprep h2t⟩

/-- Witness for the amended C3: a 16-sample epoch that is not truncated, with
n_sample 8, returns spectra. -/
theorem claim_C3_transform_truncation_witness :
    ∃ out, transform_sweep (fun l : List ℚ => l) sOnes16 8 0 4 = .ok out :=
  (claim_C3_transform_truncation (fun l : List ℚ => l) sOnes16 8 0 4
    (by norm_num [sOnes16, t16]) (by norm_num)).2
    (by norm_num [stimV, sOnes16, epochSlice, pySlice, lastN, List.replicate])
    (by norm_num [stimV, sOnes16, epochSlice, pySlice, List.replicate])

/-- C10: a sweep whose epoch is shorter than n_sample makes the derived block
width int(N / n_sample) zero, so transform_sweep raises (the division-by-zero
error when the truncation check passes); it can return normally only when the
epoch holds at least n_sample samples. -/
theorem claim_C10_short_epoch_raises {α : Type} (dft : List ℚ → List α)
    (s : Sweep) (n_sample : ℕ) (mi ma : ℚ)
    (hN : (stimV s).length < n_sample) :
    (transform_sweep dft s n_sample mi ma).isOk = false ∧
    ((lastN 10 (stimV s)).all (fun q => q == 0) = false →
      transform_sweep dft s n_sample mi ma = .error .divByZero) ∧
    ∀ (s2 : Sweep) (n2 : ℕ), (transform_sweep dft s2 n2 mi ma).isOk = true →
      n2 ≤ (stimV s2).length := by
  refine ⟨(transform_sweep_short dft s n_sample mi ma hN).1,
    (transform_sweep_short dft s n_sample mi ma hN).2, ?_⟩
  intro s2 n2 hok
  by_contra hn
  push_neg at hn
  rw [(transform_sweep_short dft s2 n2 mi ma hn).1] at hok
  simp at hok

/-- Witness for C10: the 20-sample sweep with the default n_sample of
10000. -/
theorem claim_C10_short_epoch_raises_witness :
    (transform_sweep (fun l : List ℚ => l) s20 10000 1 35).isOk = false :=
  (claim_C10_short_epoch_raises (fun l : List ℚ => l) s20 10000 1 35
    (by norm_num [stimV, s20, epochSlice, pySlice, List.replicate])).1

/-! ### Claim C4 -/

/-- C4: the multi-sweep averager excludes from the averaging stack exactly
those sweeps whose final 100 full-trace voltage samples are all exactly zero,
and an emptied stack makes chirp_amp_phase fail with the insufficient-data
error. -/
theorem claim_C4_truncated_filter (dft : List ℚ → List ℂ)
    (sweeps : List Sweep) (st en dr mi ma : ℚ) :
    (∀ s : Sweep, s ∈ chirpStack sweeps ↔
      s ∈ sweeps ∧ (lastN 100 s.v).all (fun q => q == 0) = false) ∧
    (chirpStack sweeps = [] →
      chirp_amp_phase dft sweeps st en dr mi ma = .error .insufficientData) := by
  constructor
  · intro s
    simp [chirpStack, List.mem_filter]
  · intro hempty
    apply chirp_amp_phase_of_prep_error
    unfold chirpPrep
    rw [hempty]

/-- Witness for C4: a single all-zero sweep is discarded and the averager
fails with the insufficient-data error. -/
theorem claim_C4_truncated_filter_witness :
    chirp_amp_phase dft0 [sZero16] 0 1 4 0 4 = .error .insufficientData :=
  (claim_C4_truncated_filter dft0 [sZero16] 0 1 4 0 4).2
    (by simp [chirpStack, sZero16, lastN, List.replicate])

/-! ### Claim C7 -/

/-- Counterexample to C7 as stated: with a time step of 1/5900 second and a
target rate of 2000, the current rate is 5900 and round(5900/2000) = 3, but
chirp_amp_phase decimates with width int(5900/2000) = 2 (Python int
truncation), not 3. -/
theorem claim_C7_counterexample :
    rintQ (1 / (([0, 1/5900, 2/5900, 3/5900] : List ℚ).getD 1 0 -
      ([0, 1/5900, 2/5900, 3/5900] : List ℚ).getD 0 0)) = 5900 ∧
    rintQ ((5900 : ℚ) / 2000) = 3 ∧
    chirpDownsample [1, 2, 3, 4] [1, 2, 3, 4] [0, 1/5900, 2/5900, 3/5900] 2000 =
      (subsampleQ [1, 2, 3, 4] 2, subsampleQ [1, 2, 3, 4] 2,
       everyNth [0, 1/5900, 2/5900, 3/5900] 2) ∧
    chirpDownsample [1, 2, 3, 4] [1, 2, 3, 4] [0, 1/5900, 2/5900, 3/5900] 2000 ≠
      (subsampleQ [1, 2, 3, 4] 3, subsampleQ [1, 2, 3, 4] 3,
       everyNth [0, 1/5900, 2/5900, 3/5900] 3) := by
  have hcr : rintQ (1 / (([0, 1/5900, 2/5900, 3/5900] : List ℚ).getD 1 0 -
      ([0, 1/5900, 2/5900, 3/5900] : List ℚ).getD 0 0)) = 5900 := by
    norm_num [rintQ, List.getD]
  have hround : rintQ ((5900 : ℚ) / 2000) = 3 := by
    norm_num [rintQ]
  have hint : pyint ((5900 : ℚ) / 2000) = 2 := by
    norm_num [pyint]
  have heval : chirpDownsample [1, 2, 3, 4] [1, 2, 3, 4]
      [0, 1/5900, 2/5900, 3/5900] 2000 =
      (subsampleQ [1, 2, 3, 4] 2, subsampleQ [1, 2, 3, 4] 2,
       everyNth [0, 1/5900, 2/5900, 3/5900] 2) := by
    unfold chirpDownsample
    rw [hcr]
    rw [if_pos (by norm_num)]
    norm_num [pyint]
    exact ⟨rfl, rfl⟩
  refine ⟨hcr, hround, heval, ?_⟩
  rw [heval]
  intro hcontr
  have h3 : everyNth [0, 1/5900, 2/5900, 3/5900] 2 =
      everyNth [0, 1/5900, 2/5900, 3/5900] 3 := congrArg (Prod.snd ∘ Prod.snd) hcontr
  norm_num [everyNth, List.range_succ, List.getD] at h3

/-- C7 amended: downsampling is applied exactly when the rounded reciprocal of
the time step exceeds the target rate, and the decimation width is the
truncation toward zero (here, the floor) of current_rate / target_rate, not
its rounding; the time base is strided by that same width. -/
theorem claim_C7_downsample (avg_v avg_i t : List ℚ) (down_rate : ℚ)
    (hdr : 0 < down_rate) :
    (¬ down_rate < (rintQ (1 / (t.getD 1 0 - t.getD 0 0)) : ℚ) →
      chirpDownsample avg_v avg_i t down_rate = (avg_v, avg_i, t)) ∧
    (down_rate < (rintQ (1 / (t.getD 1 0 - t.getD 0 0)) : ℚ) →
      ∃ w : ℕ, (w : ℤ) = ⌊(rintQ (1 / (t.getD 1 0 - t.getD 0 0)) : ℚ) / down_rate⌋ ∧
        chirpDownsample avg_v avg_i t down_rate =
          (subsampleQ avg_v w, subsampleQ avg_i w, everyNth t w)) := by
  constructor
  · intro hcond
    unfold chirpDownsample
    rw [if_neg hcond]
  · intro hcond
    have hratio : 0 ≤ (rintQ (1 / (t.getD 1 0 - t.getD 0 0)) : ℚ) / down_rate :=
      le_of_lt (div_pos (lt_trans hdr hcond) hdr)
    have hpy : pyint ((rintQ (1 / (t.getD 1 0 - t.getD 0 0)) : ℚ) / down_rate) =
        ⌊(rintQ (1 / (t.getD 1 0 - t.getD 0 0)) : ℚ) / down_rate⌋ :=
      pyint_eq_floor _ hratio
    have hfl : 0 ≤ ⌊(rintQ (1 / (t.getD 1 0 - t.getD 0 0)) : ℚ) / down_rate⌋ :=
      Int.floor_nonneg.mpr hratio
    refine ⟨(pyint ((rintQ (1 / (t.getD 1 0 - t.getD 0 0)) : ℚ) / down_rate)).toNat,
      ?_, ?_⟩
    · rw [hpy, Int.toNat_of_nonneg hfl]
    · unfold chirpDownsample
      rw [if_pos hcond]

/-- Witness for the amended C7: the 1/5900-second time base with target rate
2000 decimates with the floor width. -/
theorem claim_C7_downsample_witness :
    ∃ w : ℕ, (w : ℤ) = ⌊(rintQ (1 / (([0, 1/5900, 2/5900, 3/5900] : List ℚ).getD 1 0 -
        ([0, 1/5900, 2/5900, 3/5900] : List ℚ).getD 0 0)) : ℚ) / 2000⌋ ∧
      chirpDownsample [1, 2, 3, 4] [1, 2, 3, 4] [0, 1/5900, 2/5900, 3/5900] 2000 =
        (subsampleQ [1, 2, 3, 4] w, subsampleQ [1, 2, 3, 4] w,
         everyNth [0, 1/5900, 2/5900, 3/5900] w) :=
  (claim_C7_downsample [1, 2, 3, 4] [1, 2, 3, 4] [0, 1/5900, 2/5900, 3/5900]
    2000 (by norm_num)).2 (by norm_num [rintQ, List.getD])

/-! ### Claim C5 -/

/-- C5: on smoothed curves of equal length, the feature computation returns
exactly the 9 named scalar features: the peak features are taken at the first
index of maximum amplitude, peak_ratio divides the peak amplitude by the
first-sample amplitude, the 3dB frequency is taken at the first index whose
amplitude is closest to peak amplitude over sqrt 2, and the low and high
features are the first and last amplitude and phase samples. -/
theorem claim_C5_features (amp phase : List ℝ) (freq : List ℚ)
    (hne : amp ≠ []) (hlp : phase.length = amp.length)
    (hlf : freq.length = amp.length) :
    ∃ i_max i_cut : ℕ,
      i_max < amp.length ∧
      (∀ j, j < amp.length → amp.getD j 0 ≤ amp.getD i_max 0) ∧
      (∀ j, j < i_max → amp.getD j 0 < amp.getD i_max 0) ∧
      i_cut < amp.length ∧
      (∀ j, j < amp.length →
        |amp.getD i_cut 0 - amp.getD i_max 0 / Real.sqrt 2| ≤
          |amp.getD j 0 - amp.getD i_max 0 / Real.sqrt 2|) ∧
      (∀ j, j < i_cut →
        |amp.getD i_cut 0 - amp.getD i_max 0 / Real.sqrt 2| <
          |amp.getD j 0 - amp.getD i_max 0 / Real.sqrt 2|) ∧
      featuresFromCurves amp phase freq =
        { peak_ratio := amp.getD i_max 0 / amp.getD 0 0
          peak_freq := ((freq.getD i_max 0 : ℚ) : ℝ)
          threeDb_freq := ((freq.getD i_cut 0 : ℚ) : ℝ)
          z_low := amp.getD 0 0
          z_high := amp.getD (amp.length - 1) 0
          z_peak := amp.getD i_max 0
          phase_peak := phase.getD i_max 0
          phase_low := phase.getD 0 0
          phase_high := phase.getD (phase.length - 1) 0 } := by
  have hmaxlt : argmaxIdx amp < amp.length := argmaxIdx_lt_length amp hne
  refine ⟨argmaxIdx amp,
    argminIdx (amp.map fun a => |a - amp.getD (argmaxIdx amp) 0 / Real.sqrt 2|),
    hmaxlt, fun j hj => getD_le_argmaxIdx amp 0 0 j hj,
    fun j hj => getD_lt_of_lt_argmaxIdx amp 0 0 j hj, ?_, ?_, ?_, rfl⟩
  all_goals
    set c := amp.getD (argmaxIdx amp) 0 / Real.sqrt 2 with hc
    set m := amp.map fun a => |a - c| with hmdef
    have hmlen : m.length = amp.length := List.length_map amp _
    have hmne : m ≠ [] := by
      rw [hmdef]
      simpa using hne
    have hm : ∀ j, j < amp.length → m.getD j 0 = |amp.getD j 0 - c| := by
      intro j hj
      have hj2 : j < m.length := by rw [hmlen]; exact hj
      rw [List.getD_eq_getElem _ _ hj2, List.getD_eq_getElem _ _ hj]
      simp only [hmdef, List.getElem_map]
  · rw [← hmlen]
    exact argminIdx_lt_length m hmne
  · intro j hj
    have hcutlt : argminIdx m < amp.length := by
      rw [← hmlen]
      exact argminIdx_lt_length m hmne
    have h1 := argminIdx_getD_le m 0 0 j (by rw [hmlen]; exact hj)
    rw [hm _ hcutlt, hm _ hj] at h1
    exact h1
  · intro j hj
    have hcutlt : argminIdx m < amp.length := by
      rw [← hmlen]
      exact argminIdx_lt_length m hmne
    have hjlt : j < amp.length := by
      rw [← hmlen]
      exact lt_trans hj (argminIdx_lt_length m hmne)
    have h1 := argminIdx_getD_lt_of_lt m 0 0 j hj
    rw [hm _ hcutlt, hm _ hjlt] at h1
    exact h1

/-- Witness for C5 at the two-point curves amp = [1, 2], phase = [0, 0],
freq = [0, 1]. -/
theorem claim_C5_features_witness :
    ∃ i_max i_cut : ℕ,
      i_max < ([1, 2] : List ℝ).length ∧
      (∀ j, j < ([1, 2] : List ℝ).length →
        ([1, 2] : List ℝ).getD j 0 ≤ ([1, 2] : List ℝ).getD i_max 0) ∧
      (∀ j, j < i_max →
        ([1, 2] : List ℝ).getD j 0 < ([1, 2] : List ℝ).getD i_max 0) ∧
      i_cut < ([1, 2] : List ℝ).length ∧
      (∀ j, j < ([1, 2] : List ℝ).length →
        |([1, 2] : List ℝ).getD i_cut 0 -
            ([1, 2] : List ℝ).getD i_max 0 / Real.sqrt 2| ≤
          |([1, 2] : List ℝ).getD j 0 -
            ([1, 2] : List ℝ).getD i_max 0 / Real.sqrt 2|) ∧
      (∀ j, j < i_cut →
        |([1, 2] : List ℝ).getD i_cut 0 -
            ([1, 2] : List ℝ).getD i_max 0 / Real.sqrt 2| <
          |([1, 2] : List ℝ).getD j 0 -
            ([1, 2] : List ℝ).getD i_max 0 / Real.sqrt 2|) ∧
      featuresFromCurves [1, 2] [0, 0] [0, 1] =
        { peak_ratio := ([1, 2] : List ℝ).getD i_max 0 / ([1, 2] : List ℝ).getD 0 0
          peak_freq := ((([0, 1] : List ℚ).getD i_max 0 : ℚ) : ℝ)
          threeDb_freq := ((([0, 1] : List ℚ).getD i_cut 0 : ℚ) : ℝ)
          z_low := ([1, 2] : List ℝ).getD 0 0
          z_high := ([1, 2] : List ℝ).getD (([1, 2] : List ℝ).length - 1) 0
          z_peak := ([1, 2] : List ℝ).getD i_max 0
          phase_peak := ([0, 0] : List ℝ).getD i_max 0
          phase_low := ([0, 0] : List ℝ).getD 0 0
          phase_high := ([0, 0] : List ℝ).getD (([0, 0] : List ℝ).length - 1) 0 } :=
  claim_C5_features [1, 2] [0, 0] [0, 1] (by simp) rfl rfl

/-! ### Claim C6 -/

/-- The length of the stimulus window of the averaged voltage trace
(chirp.py line 141). -/
def chirpWindowLen (dv dt : List ℚ) (st en : ℚ) : ℕ :=
  (pySlice dv (find_time_index dt st) (find_time_index dt en)).length

/-- The half-spectrum axis of the multi-sweep averager (chirp.py line 143). -/
def chirpBandAxis (dv dt : List ℚ) (st en : ℚ) : List ℚ :=
  halfAxis dt (chirpWindowLen dv dt st en)

theorem find_time_index_lt_length (t : List ℚ) (q : ℚ) (h : t ≠ []) :
    find_time_index t q < t.length := by
  unfold find_time_index
  rw [← List.length_map t fun x => |x - q|]
  exact argminIdx_lt_length _ (by simpa using h)

/-- Counterexample to C6 as stated: for the 16-sample unit sweep with band
[0, 4], the axis is [0, 4/3, 8/3, 4] and the Time-Index Locator maps
max_freq = 4 to index 3 (sample value 4), but the returned frequency slice is
[0, 4/3, 8/3]: Python half-open slicing excludes the sample located for
max_freq. -/
theorem claim_C6_counterexample :
    find_time_index [0, 4/3, 8/3, 4] 4 = 3 ∧
    ([0, 4/3, 8/3, 4] : List ℚ).getD 3 0 = 4 ∧
    transform_sweep (fun l : List ℚ => l) sOnes16 8 0 4 =
      .ok ([1, 1, 1], [1, 1, 1], [0, 4/3, 8/3]) ∧
    (4 : ℚ) ∉ ([0, 4/3, 8/3] : List ℚ) := by
  refine ⟨fti_hi_sOnes16, by norm_num [List.getD], ?_, by norm_num⟩
  rw [transform_sweep_of_prep (fun l : List ℚ => l) sOnes16 8 0 4
    [1, 1, 1, 1, 1, 1, 1, 1] [1, 1, 1, 1, 1, 1, 1, 1]
    [0, 1/8, 1/4, 3/8, 1/2, 5/8, 3/4, 7/8] prep_sOnes16 (by norm_num)]
  rw [xf_sOnes16, fti_lo_sOnes16, fti_hi_sOnes16]
  norm_num [pySlice]

/-- C6 amended: the spectra and frequency arrays returned by transform_sweep
are index-aligned and span the located band half-open: the slice runs from
the index located for min_freq up to but excluding the index located for
max_freq (Python slicing), so the sample located for min_freq is the first
output sample (when the band is nonempty) and the sample located for
max_freq is not part of the output; the same half-open slicing holds for the
band restriction of chirp_amp_phase. -/
theorem claim_C6_band_slicing {α : Type} (dft : List ℚ → List α)
    (hdft : ∀ l, (dft l).length = l.length)
    (s : Sweep) (n : ℕ) (mi ma : ℚ) (v i t : List ℚ)
    (hprep : transformPrep s n = .ok (v, i, t)) (ht : 2 ≤ t.length)
    (hvi : i.length = v.length) (hv2 : 2 ≤ v.length) :
    (∃ xf lo hi, xf = halfAxis t v.length ∧
      lo = find_time_index xf mi ∧ hi = find_time_index xf ma ∧
      transform_sweep dft s n mi ma =
        .ok (pySlice (dft v) lo hi, pySlice (dft i) lo hi, pySlice xf lo hi) ∧
      hi < xf.length ∧
      (pySlice (dft v) lo hi).length = hi - lo ∧
      (pySlice (dft i) lo hi).length = hi - lo ∧
      (pySlice xf lo hi).length = hi - lo ∧
      (lo < hi → (pySlice xf lo hi).getD 0 0 = xf.getD lo 0)) ∧
    (∀ (dftc : List ℚ → List ℂ), (∀ l, (dftc l).length = l.length) →
      ∀ (sweeps : List Sweep) (st en dr mi2 ma2 : ℚ) (dv di dt : List ℚ),
        chirpPrep sweeps dr = .ok (dv, di, dt) → 2 ≤ dt.length →
        di.length = dv.length → 2 ≤ chirpWindowLen dv dt st en →
        ∃ r x f, chirp_amp_phase dftc sweeps st en dr mi2 ma2 = .ok (r, x, f) ∧
          r.length = f.length ∧ x.length = f.length ∧
          f = pySlice (chirpBandAxis dv dt st en)
                (find_time_index (chirpBandAxis dv dt st en) mi2)
                (find_time_index (chirpBandAxis dv dt st en) ma2) ∧
          find_time_index (chirpBandAxis dv dt st en) ma2 <
            (chirpBandAxis dv dt st en).length ∧
          f.length = find_time_index (chirpBandAxis dv dt st en) ma2 -
            find_time_index (chirpBandAxis dv dt st en) mi2) := by
  constructor
  · refine ⟨halfAxis t v.length, _, _, rfl, rfl, rfl,
      transform_sweep_of_prep dft s n mi ma v i t hprep ht, ?_⟩
    have hxflen : (halfAxis t v.length).length = v.length / 2 := by
      unfold halfAxis
      exact linspace_length _ _ _
    have hxfne : halfAxis t v.length ≠ [] := by
      have : 0 < (halfAxis t v.length).length := by
        rw [hxflen]
        omega
      exact List.ne_nil_of_length_pos this
    have hhi : find_time_index (halfAxis t v.length) ma <
        (halfAxis t v.length).length := find_time_index_lt_length _ _ hxfne
    have hhi2 : find_time_index (halfAxis t v.length) ma ≤ v.length := by
      rw [hxflen] at hhi
      omega
    refine ⟨hhi, ?_, ?_, ?_, ?_⟩
    · rw [pySlice_length, hdft, min_eq_left hhi2]
    · rw [pySlice_length, hdft, hvi, min_eq_left hhi2]
    · rw [pySlice_length, min_eq_left (le_of_lt hhi)]
    · intro hlohi
      unfold pySlice
      have hlo2 : find_time_index (halfAxis t v.length) mi <
          ((halfAxis t v.length).take
            (find_time_index (halfAxis t v.length) ma)).length := by
        rw [List.length_take]
        omega
      have hlo3 : find_time_index (halfAxis t v.length) mi <
          (halfAxis t v.length).length := by omega
      rw [List.getD_eq_getElem _ _ (by simpa using hlo2),
        List.getD_eq_getElem _ _ hlo3]
      rw [List.getElem_drop, List.getElem_take]
      simp
  · intro dftc hdftc sweeps st en dr mi2 ma2 dv di dt hprep2 hdt hdvdi hN2
    have hN0 : chirpWindowLen dv dt st en ≠ 0 := by omega
    have hN0b : (pySlice dv (find_time_index dt st) (find_time_index dt en)).length ≠ 0 := hN0
    have hphase := chirp_amp_phase_of_prep dftc sweeps st en dr mi2 ma2
      dv di dt hprep2 hdt hN0b
    have hxflen : (chirpBandAxis dv dt st en).length =
        chirpWindowLen dv dt st en / 2 := by
      unfold chirpBandAxis halfAxis
      exact linspace_length _ _ _
    have hxfne : chirpBandAxis dv dt st en ≠ [] :=
      List.ne_nil_of_length_pos (by rw [hxflen]; omega)
    have hhi : find_time_index (chirpBandAxis dv dt st en) ma2 <
        (chirpBandAxis dv dt st en).length := find_time_index_lt_length _ _ hxfne
    have hhi2 : find_time_index (chirpBandAxis dv dt st en) ma2 <
        chirpWindowLen dv dt st en / 2 := by
      rw [hxflen] at hhi
      exact hhi
    have hwi : (pySlice di (find_time_index dt st) (find_time_index dt en)).length
        = chirpWindowLen dv dt st en := by
      unfold chirpWindowLen
      rw [pySlice_length, pySlice_length, hdvdi]
    have hZ : (List.zipWith (· / ·)
        (dftc (pySlice dv (find_time_index dt st) (find_time_index dt en)))
        (dftc (pySlice di (find_time_index dt st) (find_time_index dt en)))).length
        = chirpWindowLen dv dt st en := by
      rw [List.length_zipWith, hdftc, hdftc, hwi]
      have hdvW : (pySlice dv (find_time_index dt st) (find_time_index dt en)).length
          = chirpWindowLen dv dt st en := rfl
      omega
    have hphase2 : chirp_amp_phase dftc sweeps st en dr mi2 ma2 = .ok
        (pySlice (pySlice ((List.zipWith (· / ·)
            (dftc (pySlice dv (find_time_index dt st) (find_time_index dt en)))
            (dftc (pySlice di (find_time_index dt st)
              (find_time_index dt en)))).map Complex.abs) 0
            (chirpWindowLen dv dt st en / 2))
           (find_time_index (chirpBandAxis dv dt st en) mi2)
           (find_time_index (chirpBandAxis dv dt st en) ma2),
         pySlice (pySlice ((List.zipWith (· / ·)
            (dftc (pySlice dv (find_time_index dt st) (find_time_index dt en)))
            (dftc (pySlice di (find_time_index dt st)
              (find_time_index dt en)))).map fun z => Real.arctan (z.im / z.re)) 0
            (chirpWindowLen dv dt st en / 2))
           (find_time_index (chirpBandAxis dv dt st en) mi2)
           (find_time_index (chirpBandAxis dv dt st en) ma2),
         pySlice (chirpBandAxis dv dt st en)
           (find_time_index (chirpBandAxis dv dt st en) mi2)
           (find_time_index (chirpBandAxis dv dt st en) ma2)) := hphase
    refine ⟨_, _, _, hphase2, ?_, ?_, rfl, hhi, ?_⟩
    · simp only [pySlice_length, List.length_map, hZ, hxflen]
      omega
    · simp only [pySlice_length, List.length_map, hZ, hxflen]
      omega
    · simp only [pySlice_length, hxflen]
      omega

/-- Witness for the amended C6: the 16-sample unit sweep with band [0, 4]. -/
theorem claim_C6_band_slicing_witness :
    ∃ xf lo hi, xf = halfAxis [0, 1/8, 1/4, 3/8, 1/2, 5/8, 3/4, 7/8]
        ([1, 1, 1, 1, 1, 1, 1, 1] : List ℚ).length ∧
      lo = find_time_index xf 0 ∧ hi = find_time_index xf 4 ∧
      transform_sweep (fun l : List ℚ => l) sOnes16 8 0 4 =
        .ok (pySlice [1, 1, 1, 1, 1, 1, 1, 1] lo hi,
             pySlice [1, 1, 1, 1, 1, 1, 1, 1] lo hi, pySlice xf lo hi) ∧
      hi < xf.length ∧
      (pySlice ([1, 1, 1, 1, 1, 1, 1, 1] : List ℚ) lo hi).length = hi - lo ∧
      (pySlice ([1, 1, 1, 1, 1, 1, 1, 1] : List ℚ) lo hi).length = hi - lo ∧
      (pySlice xf lo hi).length = hi - lo ∧
      (lo < hi → (pySlice xf lo hi).getD 0 0 = xf.getD lo 0) :=
  (claim_C6_band_slicing (fun l : List ℚ => l) (fun _ => rfl) sOnes16 8 0 4
    [1, 1, 1, 1, 1, 1, 1, 1] [1, 1, 1, 1, 1, 1, 1, 1]
    [0, 1/8, 1/4, 3/8, 1/2, 5/8, 3/4, 7/8] prep_sOnes16 (by norm_num) rfl
    (by norm_num)).1

/-! ### Structure lemmas for the averager, toward C8 -/

theorem pointwiseMean_length (l : List ℚ) (ls : List (List ℚ)) :
    (pointwiseMean (l :: ls)).length = l.length := by
  simp [pointwiseMean]

theorem chirpDownsample_spec (av ai t : List ℚ) (dr : ℚ)
    (hlen : ai.length = av.length) (htp : t.Pairwise (· < ·)) (hdr : 0 < dr) :
    (chirpDownsample av ai t dr).2.1.length =
      (chirpDownsample av ai t dr).1.length ∧
    (chirpDownsample av ai t dr).2.2.Pairwise (· < ·) := by
  unfold chirpDownsample
  by_cases hcond : dr < (rintQ (1 / (t.getD 1 0 - t.getD 0 0)) : ℚ)
  · rw [if_pos hcond]
    have hratio1 : (1 : ℚ) ≤ (rintQ (1 / (t.getD 1 0 - t.getD 0 0)) : ℚ) / dr := by
      rw [le_div_iff₀ hdr]
      linarith
    have hfl1 : 1 ≤ ⌊(rintQ (1 / (t.getD 1 0 - t.getD 0 0)) : ℚ) / dr⌋ :=
      Int.le_floor.mpr (by exact_mod_cast hratio1)
    have hpy : pyint ((rintQ (1 / (t.getD 1 0 - t.getD 0 0)) : ℚ) / dr) =
        ⌊(rintQ (1 / (t.getD 1 0 - t.getD 0 0)) : ℚ) / dr⌋ :=
      pyint_eq_floor _ (by linarith)
    have hw1 : 1 ≤ (pyint ((rintQ (1 / (t.getD 1 0 - t.getD 0 0)) : ℚ) / dr)).toNat := by
      rw [hpy]
      omega
    constructor
    · simp only [subsampleQ_length, hlen]
    · exact everyNth_pairwise_lt (by omega) htp
  · rw [if_neg hcond]
    exact ⟨hlen, htp⟩

theorem chirpPrep_spec (sweeps : List Sweep) (dr : ℚ) (dv di dt : List ℚ)
    (h : chirpPrep sweeps dr = .ok (dv, di, dt))
    (hvi : ∀ s ∈ sweeps, s.i.length = s.v.length)
    (htp : (sweeps.headD default).t.Pairwise (· < ·)) (hdr : 0 < dr) :
    di.length = dv.length ∧ dt.Pairwise (· < ·) := by
  unfold chirpPrep at h
  rcases hstack : chirpStack sweeps with _ | ⟨s0, rest⟩
  · rw [hstack] at h
    simp at h
  · rw [hstack] at h
    dsimp only at h
    split at h
    · simp at h
    · split at h
      · simp at h
      · have hs0 : s0 ∈ sweeps := by
          have hmem : s0 ∈ chirpStack sweeps := by
            rw [hstack]
            exact List.mem_cons_self s0 rest
          exact List.mem_of_mem_filter hmem
        have hlen : (pointwiseMean ((s0 :: rest).map (·.i))).length =
            (pointwiseMean ((s0 :: rest).map (·.v))).length := by
          rw [List.map_cons, List.map_cons, pointwiseMean_length,
            pointwiseMean_length]
          exact hvi s0 hs0
        have hspec := chirpDownsample_spec (pointwiseMean ((s0 :: rest).map (·.v)))
          (pointwiseMean ((s0 :: rest).map (·.i))) (sweeps.headD default).t dr
          hlen htp hdr
        have hinj : chirpDownsample (pointwiseMean ((s0 :: rest).map (·.v)))
            (pointwiseMean ((s0 :: rest).map (·.i))) (sweeps.headD default).t dr
            = (dv, di, dt) := by
          injection h
        rw [hinj] at hspec
        exact hspec

theorem chirp_amp_phase_indexError (dftc : List ℚ → List ℂ)
    (sweeps : List Sweep) (st en dr mi ma : ℚ) (dv di dt : List ℚ)
    (hprep : chirpPrep sweeps dr = .ok (dv, di, dt)) (hdt : dt.length < 2) :
    chirp_amp_phase dftc sweeps st en dr mi ma = .error .indexError := by
  unfold chirp_amp_phase
  rw [hprep, except_bind_ok]
  dsimp only
  rw [if_pos hdt]

theorem chirp_amp_phase_emptyArray (dftc : List ℚ → List ℂ)
    (sweeps : List Sweep) (st en dr mi ma : ℚ) (dv di dt : List ℚ)
    (hprep : chirpPrep sweeps dr = .ok (dv, di, dt)) (hdt : ¬ dt.length < 2)
    (hN : (pySlice dv (find_time_index dt st) (find_time_index dt en)).length = 0) :
    chirp_amp_phase dftc sweeps st en dr mi ma = .error .emptyArray := by
  unfold chirp_amp_phase
  rw [hprep, except_bind_ok]
  dsimp only
  rw [if_neg hdt, if_pos hN]

/-! ### Claim C8 -/

/-- C8: whenever chirp_amp_phase accepts a sweep set and returns, the
resistance, reactance and frequency arrays have equal length, the frequency
array is strictly increasing, and every resistance value is non-negative.
The hypotheses express the data-model invariants of the spec: equal voltage
and current lengths within a sweep, a strictly increasing time base, a
positive target rate, and a length-preserving spectrum transform. -/
theorem claim_C8_averager_invariants (dftc : List ℚ → List ℂ)
    (hdftc : ∀ l, (dftc l).length = l.length) (sweeps : List Sweep)
    (st en dr mi ma : ℚ) (r x : List ℝ) (fq : List ℚ)
    (hok : chirp_amp_phase dftc sweeps st en dr mi ma = .ok (r, x, fq))
    (hvi : ∀ s ∈ sweeps, s.i.length = s.v.length)
    (htp : (sweeps.headD default).t.Pairwise (· < ·)) (hdr : 0 < dr) :
    r.length = fq.length ∧ x.length = fq.length ∧
    fq.Pairwise (· < ·) ∧ ∀ y ∈ r, 0 ≤ y := by
  rcases hprep : chirpPrep sweeps dr with e | ⟨dv, di, dt⟩
  · rw [chirp_amp_phase_of_prep_error dftc sweeps st en dr mi ma e hprep] at hok
    simp at hok
  · by_cases hdt : dt.length < 2
    · rw [chirp_amp_phase_indexError dftc sweeps st en dr mi ma dv di dt
        hprep hdt] at hok
      simp at hok
    · by_cases hN : (pySlice dv (find_time_index dt st)
          (find_time_index dt en)).length = 0
      · rw [chirp_amp_phase_emptyArray dftc sweeps st en dr mi ma dv di dt
          hprep hdt hN] at hok
        simp at hok
      · have hspec := chirpPrep_spec sweeps dr dv di dt hprep hvi htp hdr
        obtain ⟨hdvdi, htpdt⟩ := hspec
        have hphase := chirp_amp_phase_of_prep dftc sweeps st en dr mi ma
          dv di dt hprep (by omega) hN
        rw [hphase] at hok
        injection hok with htup
        simp only [Prod.mk.injEq] at htup
        obtain ⟨h1, h2, h3⟩ := htup
        subst h1 h2 h3
        set W := (pySlice dv (find_time_index dt st)
          (find_time_index dt en)).length with hW
        have hwi : (pySlice di (find_time_index dt st)
            (find_time_index dt en)).length = W := by
          rw [hW, pySlice_length, pySlice_length, hdvdi]
        have hZ : (List.zipWith (· / ·)
            (dftc (pySlice dv (find_time_index dt st) (find_time_index dt en)))
            (dftc (pySlice di (find_time_index dt st) (find_time_index dt en)))).length
            = W := by
          rw [List.length_zipWith, hdftc, hdftc, hwi, ← hW]
          exact min_self W
        have hxflen : (halfAxis dt W).length = W / 2 := by
          unfold halfAxis
          exact linspace_length _ _ _
        refine ⟨?_, ?_, ?_, ?_⟩
        · simp only [pySlice_length, List.length_map, hZ, hxflen]
          omega
        · simp only [pySlice_length, List.length_map, hZ, hxflen]
          omega
        · have hT : dt.getD 0 0 < dt.getD 1 0 := by
            have h01 := List.pairwise_iff_getElem.mp htpdt 0 1 (by omega)
              (by omega) (by omega)
            rw [List.getD_eq_getElem _ _ (by omega : (0 : ℕ) < dt.length),
              List.getD_eq_getElem _ _ (by omega : (1 : ℕ) < dt.length)]
            exact h01
          have hb : (0 : ℚ) < 1 / (2 * (dt.getD 1 0 - dt.getD 0 0)) := by
            have hpos : (0 : ℚ) < dt.getD 1 0 - dt.getD 0 0 := by linarith
            positivity
          exact pairwise_pySlice (by
            unfold halfAxis
            exact linspace_pairwise_lt _ _ _ hb) _ _
        · intro y hy
          have hy2 := (pySlice_sublist _ _ _).subset hy
          have hy3 := (pySlice_sublist _ _ _).subset hy2
          obtain ⟨z, _, rfl⟩ := List.mem_map.mp hy3
          exact Complex.abs.nonneg z

/-! ### Concrete evaluation of the averager on an 8-sample sweep -/

/-- An 8-sample sweep with constant unit traces and a 1/8-second step. -/
def s8 : Sweep := ⟨[0, 1/8, 1/4, 3/8, 1/2, 5/8, 3/4, 7/8],
  List.replicate 8 1, List.replicate 8 1, 0, 7⟩

theorem chirpStack_s8 : chirpStack [s8] = [s8] := by
  simp [chirpStack, s8, lastN, List.replicate]

theorem chirpPrep_s8 : chirpPrep [s8] 8 =
    .ok ([1, 1, 1, 1, 1, 1, 1, 1], [1, 1, 1, 1, 1, 1, 1, 1],
         [0, 1/8, 1/4, 3/8, 1/2, 5/8, 3/4, 7/8]) := by
  unfold chirpPrep
  rw [chirpStack_s8]
  dsimp only
  rw [if_neg (by simp [s8])]
  rw [if_neg (by norm_num [s8])]
  simp only [List.map_cons, List.map_nil]
  have hcd : chirpDownsample (pointwiseMean [s8.v]) (pointwiseMean [s8.i])
      ([s8].headD default).t 8 =
      ([1, 1, 1, 1, 1, 1, 1, 1], [1, 1, 1, 1, 1, 1, 1, 1],
       [0, 1/8, 1/4, 3/8, 1/2, 5/8, 3/4, 7/8]) := by
    unfold chirpDownsample
    rw [if_neg (by norm_num [s8, rintQ, List.getD])]
    norm_num [pointwiseMean, s8, List.range_succ, List.getD, List.replicate]
  rw [hcd]

theorem fti_t8_lo : find_time_index [0, 1/8, 1/4, 3/8, 1/2, 5/8, 3/4, 7/8] 0 = 0 := by
  norm_num [find_time_index, argminIdx, List.getD, abs]

theorem fti_t8_hi : find_time_index [0, 1/8, 1/4, 3/8, 1/2, 5/8, 3/4, 7/8] (7/8) = 7 := by
  norm_num [find_time_index, argminIdx, List.getD, abs]

theorem chirp_amp_phase_s8 : chirp_amp_phase dft0 [s8] 0 (7/8) 8 0 4 =
    .ok ([1, 1], [0, 0], [0, 2]) := by
  unfold chirp_amp_phase
  rw [chirpPrep_s8, except_bind_ok]
  dsimp only
  rw [fti_t8_lo, fti_t8_hi]
  rw [if_neg (by norm_num)]
  have hwv : pySlice ([1, 1, 1, 1, 1, 1, 1, 1] : List ℚ) 0 7 =
      [1, 1, 1, 1, 1, 1, 1] := by
    norm_num [pySlice]
  rw [hwv]
  rw [if_neg (by norm_num)]
  have hxf : halfAxis [0, 1/8, 1/4, 3/8, 1/2, 5/8, 3/4, 7/8]
      ([1, 1, 1, 1, 1, 1, 1] : List ℚ).length = [0, 2, 4] := by
    norm_num [halfAxis, linspace, List.range_succ, List.getD]
  rw [hxf]
  have hlo : find_time_index [0, 2, 4] 0 = 0 := by
    norm_num [find_time_index, argminIdx, List.getD, abs]
  have hhi : find_time_index [0, 2, 4] 4 = 2 := by
    norm_num [find_time_index, argminIdx, List.getD, abs]
  rw [hlo, hhi]
  norm_num [dft0, pySlice, List.replicate]

/-- Witness for C8: the averager on the 8-sample unit sweep returns
index-aligned arrays with increasing frequency and non-negative
resistance. -/
theorem claim_C8_averager_invariants_witness :
    ([1, 1] : List ℝ).length = ([0, 2] : List ℚ).length ∧
    ([0, 0] : List ℝ).length = ([0, 2] : List ℚ).length ∧
    ([0, 2] : List ℚ).Pairwise (· < ·) ∧ ∀ y ∈ ([1, 1] : List ℝ), 0 ≤ y :=
  claim_C8_averager_invariants dft0 (fun l => by simp [dft0]) [s8] 0 (7/8) 8 0 4
    [1, 1] [0, 0] [0, 2] chirp_amp_phase_s8
    (by intro s hs; rw [List.mem_singleton] at hs; subst hs; rfl)
    (by norm_num [s8, List.pairwise_cons]) (by norm_num)

/-! ### Claim C9 -/

/-- C9: the per-sweep smoothing stage computes Z as the pointwise quotient of
the voltage and current spectra, amplitude as the absolute value of Z, phase
as the four-quadrant angle of Z (distinct from the arctangent of the
imaginary-to-real ratio used by the averager, as the value at -1 shows), and
applies the degree-5 polynomial smoothing filter with odd window length
rint(1/(freq[1]-freq[0]))*2 + 1 independently to amplitude and phase. -/
theorem claim_C9_smoothing (dft : List ℚ → List ℂ)
    (savgol : List ℝ → ℤ → ℕ → List ℝ) (s : Sweep) (n : ℕ) (mi ma : ℚ)
    (v i : List ℂ) (freq : List ℚ)
    (htr : transform_sweep dft s n mi ma = .ok (v, i, freq))
    (hfr : 2 ≤ freq.length) :
    ∃ (Z : List ℂ) (amp phase : List ℝ) (nf : ℤ),
      Z = List.zipWith (· / ·) v i ∧
      amp = Z.map Complex.abs ∧
      phase = Z.map Complex.arg ∧
      nf = pyint ((rintQ (1 / (freq.getD 1 0 - freq.getD 0 0)) : ℚ)) * 2 + 1 ∧
      Odd nf ∧
      chirp_sweep_amp_phase dft savgol s n mi ma =
        .ok (savgol amp nf 5, savgol phase nf 5, freq) ∧
      Complex.arg (-1) ≠ Real.arctan ((-1 : ℂ).im / (-1 : ℂ).re) := by
  refine ⟨_, _, _, _, rfl, rfl, rfl, rfl,
    ⟨pyint ((rintQ (1 / (freq.getD 1 0 - freq.getD 0 0)) : ℚ)), by ring⟩, ?_, ?_⟩
  · unfold chirp_sweep_amp_phase
    rw [htr, except_bind_ok]
    dsimp only
    rw [if_neg (by omega)]
  · rw [Complex.arg_neg_one]
    have him : (-1 : ℂ).im = 0 := by simp
    have hre : (-1 : ℂ).re = -1 := by simp
    rw [him, hre]
    norm_num [Real.pi_ne_zero]

/-- Witness for C9 on the 16-sample unit sweep. -/
theorem claim_C9_smoothing_witness :
    ∃ (Z : List ℂ) (amp phase : List ℝ) (nf : ℤ),
      Z = List.zipWith (· / ·) (List.replicate 3 (1 : ℂ)) (List.replicate 3 (1 : ℂ)) ∧
      amp = Z.map Complex.abs ∧
      phase = Z.map Complex.arg ∧
      nf = pyint ((rintQ (1 / (([0, 4/3, 8/3] : List ℚ).getD 1 0 -
        ([0, 4/3, 8/3] : List ℚ).getD 0 0)) : ℚ)) * 2 + 1 ∧
      Odd nf ∧
      chirp_sweep_amp_phase dft0 savgol0 sOnes16 8 0 4 =
        .ok (savgol0 amp nf 5, savgol0 phase nf 5, [0, 4/3, 8/3]) ∧
      Complex.arg (-1) ≠ Real.arctan ((-1 : ℂ).im / (-1 : ℂ).re) :=
  claim_C9_smoothing dft0 savgol0 sOnes16 8 0 4 (List.replicate 3 1)
    (List.replicate 3 1) [0, 4/3, 8/3] tsweep_sOnes16 (by norm_num)

end Ipfx











